import Mathlib

/-!
Shallow embedding of the tic-tac-toe game engine in `src/script.js`:
the board data model, the win/draw evaluation, the cell-click handler,
the computer-opponent heuristic (`makeComputerMove`), and the reset
operations, together with theorems checking the specification's claims.
-/

set_option maxRecDepth 4000

/-- A player's mark: the string `'X'` or `'O'` in the source. -/
inductive Player where
  | X
  | O
deriving DecidableEq, Repr

/-- A board cell: the empty string (modelled as `none`) or a player's mark. -/
abbrev Cell := Option Player

/-- Flip of the turn: `currentPlayer === 'X' ? 'O' : 'X'` (script.js line 87). -/
def Player.other : Player → Player
  | .X => .O
  | .O => .X

/-- The game mode, `'human-human'` or `'human-computer'` (script.js line 17). -/
inductive GameMode where
  | humanHuman
  | humanComputer
deriving DecidableEq, Repr

/-- The status-display message written by `updateStatus`: a turn prompt,
a win announcement, or the draw announcement. -/
inductive Status where
  | turn (p : Player)
  | won (p : Player)
  | draw
deriving DecidableEq, Repr

/-- The 9-cell board `board = ['', ..., '']` (script.js line 14), row-major. -/
structure Board where
  c0 : Cell
  c1 : Cell
  c2 : Cell
  c3 : Cell
  c4 : Cell
  c5 : Cell
  c6 : Cell
  c7 : Cell
  c8 : Cell
deriving DecidableEq, Repr

/-- Read `board[i]`. -/
def Board.get (b : Board) (i : Fin 9) : Cell :=
  match i with
  | ⟨0, _⟩ => b.c0
  | ⟨1, _⟩ => b.c1
  | ⟨2, _⟩ => b.c2
  | ⟨3, _⟩ => b.c3
  | ⟨4, _⟩ => b.c4
  | ⟨5, _⟩ => b.c5
  | ⟨6, _⟩ => b.c6
  | ⟨7, _⟩ => b.c7
  | ⟨8, _⟩ => b.c8
  | ⟨n + 9, h⟩ => absurd h (by omega)

/-- Write `board[i] = c`. -/
def Board.set (b : Board) (i : Fin 9) (c : Cell) : Board :=
  match i with
  | ⟨0, _⟩ => { b with c0 := c }
  | ⟨1, _⟩ => { b with c1 := c }
  | ⟨2, _⟩ => { b with c2 := c }
  | ⟨3, _⟩ => { b with c3 := c }
  | ⟨4, _⟩ => { b with c4 := c }
  | ⟨5, _⟩ => { b with c5 := c }
  | ⟨6, _⟩ => { b with c6 := c }
  | ⟨7, _⟩ => { b with c7 := c }
  | ⟨8, _⟩ => { b with c8 := c }
  | ⟨n + 9, h⟩ => absurd h (by omega)

/-- The board as the ordered list of its 9 cells (the JS array itself). -/
def Board.toList (b : Board) : List Cell :=
  [b.c0, b.c1, b.c2, b.c3, b.c4, b.c5, b.c6, b.c7, b.c8]

/-- The all-empty board `['', '', '', '', '', '', '', '', '']`. -/
def emptyBoard : Board :=
  ⟨none, none, none, none, none, none, none, none, none⟩

/-- An index triple of one winning combination. -/
abbrev Line := Fin 9 × Fin 9 × Fin 9

/-- The table `winningCombinations` (script.js lines 20-29): 3 rows,
3 columns, 2 diagonals, in this fixed order. -/
def winningCombinations : List Line :=
  [(0, 1, 2), (3, 4, 5), (6, 7, 8),
   (0, 3, 6), (1, 4, 7), (2, 5, 8),
   (0, 4, 8), (2, 4, 6)]

/-- One iteration of the loop in `checkForWin` (script.js lines 103-122):
the combination is won when none of its cells is empty and all three match. -/
def lineWon (b : Board) (l : Line) : Bool :=
  if b.get l.1 = none ∨ b.get l.2.1 = none ∨ b.get l.2.2 = none then false
  else decide (b.get l.1 = b.get l.2.1 ∧ b.get l.2.1 = b.get l.2.2)

/-- The first winning combination found by the loop of `checkForWin`
(the one the code highlights before `break`), if any. -/
def findWin (b : Board) : Option Line :=
  winningCombinations.find? (lineWon b)

/-- The function `checkForWin()` (script.js lines 101-124): `roundWon` is
true exactly when the loop found a winning combination. -/
def checkForWin (b : Board) : Bool :=
  (findWin b).isSome

/-- The function `checkForDraw()` (script.js lines 130-133):
`!checkForWin() && board.every(cell => cell !== '')`. -/
def checkForDraw (b : Board) : Bool :=
  !checkForWin b && b.toList.all (fun cell => cell ≠ none)

/-- The game-state variables of script.js lines 13-17 plus the
status-display text (the output of `updateStatus`). -/
structure GameState where
  board : Board
  currentPlayer : Player
  gameActive : Bool
  gameMode : GameMode
  status : Status
deriving DecidableEq, Repr

/-- The function `initializeGame()` (script.js lines 42-53): clears the
board, sets `currentPlayer = 'X'`, `gameActive = true`, updates the status
text; `gameMode` is left as it is. -/
def initializeGame (s : GameState) : GameState :=
  { s with board := emptyBoard, currentPlayer := Player.X, gameActive := true,
           status := Status.turn Player.X }

/-- The function `showModeSelectionScreen()` (script.js lines 246-253):
resets `gameMode` to `'human-human'` and then calls `initializeGame()`. -/
def showModeSelectionScreen (s : GameState) : GameState :=
  initializeGame { s with gameMode := GameMode.humanHuman }

/-- The function `handleCellClick` (script.js lines 59-95) restricted to its
game-state effect: the guard of line 64 rejects the click; otherwise the
mark is placed, win is checked before draw, and the turn flips only when
the game continues. -/
def handleCellClick (s : GameState) (i : Fin 9) : GameState :=
  if s.board.get i ≠ none ∨ s.gameActive = false ∨
      (s.gameMode = GameMode.humanComputer ∧ s.currentPlayer = Player.O) then s
  else
    if checkForWin (s.board.set i (some s.currentPlayer)) then
      { s with board := s.board.set i (some s.currentPlayer),
               status := Status.won s.currentPlayer, gameActive := false }
    else if checkForDraw (s.board.set i (some s.currentPlayer)) then
      { s with board := s.board.set i (some s.currentPlayer),
               status := Status.draw, gameActive := false }
    else
      { s with board := s.board.set i (some s.currentPlayer),
               currentPlayer := s.currentPlayer.other,
               status := Status.turn s.currentPlayer.other }

/-- The expression of script.js line 142:
`board.map((cell, index) => cell === '' ? index : -1).filter(i => i !== -1)`,
the ascending list of empty-cell indices. -/
def availableCells (b : Board) : List (Fin 9) :=
  (List.finRange 9).filter (fun i => decide (b.get i = none))

/-- One iteration of the loop in `findWinningOrBlockingMove` (script.js
lines 156-166): on a combination holding exactly two of `p`'s marks and an
empty cell, the empty position is returned. -/
def fwbLine (b : Board) (p : Player) (l : Line) : Option (Fin 9) :=
  if ([b.get l.1, b.get l.2.1, b.get l.2.2].filter
        (fun cell => decide (cell = some p))).length = 2 ∧
      none ∈ [b.get l.1, b.get l.2.1, b.get l.2.2] then
    if b.get l.1 = none ∧ some p = b.get l.2.1 ∧ some p = b.get l.2.2 then
      some l.1
    else if b.get l.2.1 = none ∧ some p = b.get l.1 ∧ some p = b.get l.2.2 then
      some l.2.1
    else if b.get l.2.2 = none ∧ some p = b.get l.1 ∧ some p = b.get l.2.1 then
      some l.2.2
    else
      none
  else
    none

/-- The helper `findWinningOrBlockingMove(playerToCheck)` (script.js lines
155-168): the first combination (in table order) yielding a completing
move, `-1` (here `none`) otherwise. -/
def findWinningOrBlockingMove (b : Board) (p : Player) : Option (Fin 9) :=
  winningCombinations.findSome? (fwbLine b p)

/-- Rule 4 of `makeComputerMove` (script.js lines 184-189): take the corner
diagonally opposite a human corner, pairs checked in the fixed order
0↔8, 2↔6, 6↔2, 8↔0. -/
def oppositeCorner (b : Board) : Option (Fin 9) :=
  if b.get 0 = some Player.X ∧ b.get 8 = none then some 8
  else if b.get 2 = some Player.X ∧ b.get 6 = none then some 6
  else if b.get 6 = some Player.X ∧ b.get 2 = none then some 2
  else if b.get 8 = some Player.X ∧ b.get 0 = none then some 0
  else none

/-- The corner scan order `[0, 2, 6, 8]` of rule 5 (script.js line 193). -/
def corners : List (Fin 9) := [0, 2, 6, 8]

/-- The side scan order `[1, 3, 5, 7]` of rule 6 (script.js line 204). -/
def sides : List (Fin 9) := [1, 3, 5, 7]

/-- The loops of rules 5 and 6 (script.js lines 192-211): first empty cell
of the given scan order. -/
def firstEmptyOf (b : Board) (l : List (Fin 9)) : Option (Fin 9) :=
  l.find? (fun i => decide (b.get i = none))

/-- The priority chain of rules 1-6 of `makeComputerMove` (script.js lines
170-211): win, block, center, opposite corner, any empty corner, any empty
side, each tried only when every earlier rule left `bestMove === -1`. -/
def bestMoveRules (b : Board) : Option (Fin 9) :=
  match findWinningOrBlockingMove b Player.O with
  | some m => some m
  | none =>
    match findWinningOrBlockingMove b Player.X with
    | some m => some m
    | none =>
      if b.get 4 = none then some 4
      else
        match oppositeCorner b with
        | some m => some m
        | none =>
          match firstEmptyOf b corners with
          | some m => some m
          | none => firstEmptyOf b sides

/-- The value of `bestMove` when `makeComputerMove` reaches script.js line
219 with a non-empty `availableCells`: the rule chain's choice, or the
random fallback of line 215 (the random draw `Math.floor(Math.random() *
length)` is modelled by an arbitrary `rand : Nat` taken modulo the list
length, which ranges over exactly the indices the source can draw). -/
def chooseMove (b : Board) (rand : Nat) : Fin 9 :=
  match bestMoveRules b with
  | some m => m
  | none => (availableCells b).getD (rand % (availableCells b).length) 0

/-- The function `makeComputerMove()` (script.js lines 139-241) restricted
to its game-state effect: return unchanged when `!gameActive` (line 140) or
no cell is available (line 144); otherwise place `'O'` on the chosen cell,
check win before draw, and hand the turn back to `'X'` only when the game
continues. -/
def makeComputerMove (rand : Nat) (s : GameState) : GameState :=
  if s.gameActive = false then s
  else if availableCells s.board = [] then s
  else
    if checkForWin (s.board.set (chooseMove s.board rand) (some Player.O)) then
      { s with board := s.board.set (chooseMove s.board rand) (some Player.O),
               status := Status.won Player.O, gameActive := false }
    else if checkForDraw (s.board.set (chooseMove s.board rand) (some Player.O)) then
      { s with board := s.board.set (chooseMove s.board rand) (some Player.O),
               status := Status.draw, gameActive := false }
    else
      { s with board := s.board.set (chooseMove s.board rand) (some Player.O),
               currentPlayer := Player.X, status := Status.turn Player.X }

/-- An input event of the running page that mutates the game state: a human
click on cell `i`, or the deferred computer move scheduled on script.js
line 93 (with its modelled random draw). -/
inductive Move where
  | human (i : Fin 9)
  | computer (rand : Nat)

/-- A move is accepted when it actually places a mark: a click passing the
guard of script.js line 64, or a deferred computer move firing in the
situation in which line 93 schedules it (human-computer mode, `'O'` to
move, game active) with a cell available. -/
def accepts (s : GameState) : Move → Prop
  | .human i =>
      s.board.get i = none ∧ s.gameActive = true ∧
        ¬(s.gameMode = GameMode.humanComputer ∧ s.currentPlayer = Player.O)
  | .computer _ =>
      s.gameMode = GameMode.humanComputer ∧ s.currentPlayer = Player.O ∧
        s.gameActive = true ∧ ∃ i, s.board.get i = none

/-- The state transition performed by a move. -/
def applyMove (s : GameState) : Move → GameState
  | .human i => handleCellClick s i
  | .computer rand => makeComputerMove rand s

/-- States reached from a freshly reset game (`initializeGame`) by `n`
accepted moves. -/
inductive ReachedIn : Nat → GameState → Prop where
  | init (s : GameState) : ReachedIn 0 (initializeGame s)
  | step {n : Nat} {s : GameState} {m : Move} :
      ReachedIn n s → accepts s m → ReachedIn (n + 1) (applyMove s m)

/-- A mid-game human-vs-computer state in which script.js line 93 has just
scheduled a deferred computer move: X played cell 0, the turn passed to O. -/
def pendingState : GameState :=
  ⟨⟨some Player.X, none, none, none, none, none, none, none, none⟩,
    Player.O, true, GameMode.humanComputer, Status.turn Player.O⟩

/-- The state right after the user returns to mode selection while the
computer move of `pendingState` is still pending. -/
def resetState : GameState := showModeSelectionScreen pendingState

/-- The board `[X, X, '', '', '', '', '', '', '']` of the block-rule
scenario. -/
def boardRowBlock : Board :=
  ⟨some Player.X, some Player.X, none, none, none, none, none, none, none⟩

/-- The board `[X, '', '', '', O, '', '', '', '']` of the opposite-corner
scenario. -/
def boardCornerReply : Board :=
  ⟨some Player.X, none, none, none, some Player.O, none, none, none, none⟩

/-- A human-vs-human state in which X is about to complete the top row on
an otherwise part-filled board. -/
def demoWinState : GameState :=
  ⟨⟨some Player.X, some Player.X, none, some Player.O, some Player.O, none,
     none, none, none⟩,
    Player.X, true, GameMode.humanHuman, Status.turn Player.X⟩

/-- A state whose cell 0 is already occupied, for the rejected-click
witness. -/
def demoOccupiedState : GameState :=
  ⟨⟨some Player.X, none, none, none, none, none, none, none, none⟩,
    Player.O, true, GameMode.humanHuman, Status.turn Player.O⟩

/-- A human-vs-computer state on O's turn, for the ignored-click witness. -/
def demoComputerTurnState : GameState :=
  ⟨emptyBoard, Player.O, true, GameMode.humanComputer, Status.turn Player.O⟩

/-- A board whose top row is three O marks, for the first-winning-line
witness. -/
def demoWonBoard : Board :=
  ⟨some Player.O, some Player.O, some Player.O, none, none, none, none,
    some Player.X, some Player.X⟩

/-! Helper lemmas shared by the claim theorems. -/

theorem board_full_iff (b : Board) :
    (b.toList.all (fun cell => cell ≠ none)) = true ↔ ∀ i : Fin 9, b.get i ≠ none := by
  obtain ⟨c0, c1, c2, c3, c4, c5, c6, c7, c8⟩ := b
  constructor
  · intro h i
    simp only [Board.toList, List.all_cons, List.all_nil, Bool.and_eq_true,
      decide_eq_true_eq, Bool.and_true] at h
    obtain ⟨h0, h1, h2, h3, h4, h5, h6, h7, h8⟩ := h
    match i with
    | ⟨0, _⟩ => exact h0
    | ⟨1, _⟩ => exact h1
    | ⟨2, _⟩ => exact h2
    | ⟨3, _⟩ => exact h3
    | ⟨4, _⟩ => exact h4
    | ⟨5, _⟩ => exact h5
    | ⟨6, _⟩ => exact h6
    | ⟨7, _⟩ => exact h7
    | ⟨8, _⟩ => exact h8
    | ⟨n + 9, hn⟩ => exact absurd hn (by omega)
  · intro h
    simp only [Board.toList, List.all_cons, List.all_nil, Bool.and_eq_true,
      decide_eq_true_eq, Bool.and_true]
    exact ⟨h 0, h 1, h 2, h 3, h 4, h 5, h 6, h 7, h 8⟩

theorem checkForWin_eq_false_iff (b : Board) :
    checkForWin b = false ↔ ∀ l ∈ winningCombinations, lineWon b l = false := by
  constructor
  · intro hf l hl
    have hnone : findWin b = none := by
      cases hw : findWin b with
      | none => rfl
      | some x => rw [checkForWin, hw] at hf; cases hf
    rw [findWin, List.find?_eq_none] at hnone
    simpa [Bool.not_eq_true] using hnone l hl
  · intro hall
    cases hw : findWin b with
    | none => rw [checkForWin, hw]; rfl
    | some x =>
      rw [findWin] at hw
      have hx := List.find?_some hw
      have hmem := List.mem_of_find?_eq_some hw
      rw [hall x hmem] at hx
      cases hx

theorem mem_availableCells {b : Board} {i : Fin 9} :
    i ∈ availableCells b ↔ b.get i = none := by
  simp [availableCells, List.mem_filter]

theorem availableCells_ne_nil {b : Board} {i : Fin 9} (h : b.get i = none) :
    availableCells b ≠ [] :=
  List.ne_nil_of_mem (mem_availableCells.mpr h)

theorem fwbLine_empty {b : Board} {p : Player} {l : Line} {m : Fin 9}
    (h : fwbLine b p l = some m) : b.get m = none := by
  rw [fwbLine] at h
  split at h
  · split at h
    · rename_i hc
      exact (Option.some.inj h) ▸ hc.1
    · split at h
      · rename_i hc
        exact (Option.some.inj h) ▸ hc.1
      · split at h
        · rename_i hc
          exact (Option.some.inj h) ▸ hc.1
        · exact absurd h (by simp)
  · exact absurd h (by simp)

theorem fwb_empty {b : Board} {p : Player} {m : Fin 9}
    (h : findWinningOrBlockingMove b p = some m) : b.get m = none := by
  rw [findWinningOrBlockingMove, List.findSome?_eq_some_iff] at h
  obtain ⟨l1, a, l2, _, ha, _⟩ := h
  exact fwbLine_empty ha

theorem oppositeCorner_empty {b : Board} {m : Fin 9}
    (h : oppositeCorner b = some m) : b.get m = none := by
  rw [oppositeCorner] at h
  split at h
  · rename_i hc; exact (Option.some.inj h) ▸ hc.2
  · split at h
    · rename_i hc; exact (Option.some.inj h) ▸ hc.2
    · split at h
      · rename_i hc; exact (Option.some.inj h) ▸ hc.2
      · split at h
        · rename_i hc; exact (Option.some.inj h) ▸ hc.2
        · exact absurd h (by simp)

theorem firstEmptyOf_empty {b : Board} {l : List (Fin 9)} {m : Fin 9}
    (h : firstEmptyOf b l = some m) : b.get m = none := by
  rw [firstEmptyOf] at h
  simpa using List.find?_some h

theorem firstEmptyOf_eq_none {b : Board} {l : List (Fin 9)}
    (h : firstEmptyOf b l = none) : ∀ i ∈ l, b.get i ≠ none := by
  rw [firstEmptyOf, List.find?_eq_none] at h
  intro i hi
  simpa using h i hi

theorem bestMoveRules_empty {b : Board} {m : Fin 9}
    (h : bestMoveRules b = some m) : b.get m = none := by
  rw [bestMoveRules] at h
  cases hO : findWinningOrBlockingMove b Player.O with
  | some m1 => simp only [hO, Option.some.injEq] at h; subst h; exact fwb_empty hO
  | none =>
    simp only [hO] at h
    cases hX : findWinningOrBlockingMove b Player.X with
    | some m1 => simp only [hX, Option.some.injEq] at h; subst h; exact fwb_empty hX
    | none =>
      simp only [hX] at h
      by_cases h4 : b.get 4 = none
      · simp only [h4, if_true] at h
        rw [← Option.some.inj h]
        exact h4
      · simp only [h4, if_false] at h
        cases hOp : oppositeCorner b with
        | some m1 =>
          simp only [hOp, Option.some.injEq] at h; subst h
          exact oppositeCorner_empty hOp
        | none =>
          simp only [hOp] at h
          cases hC : firstEmptyOf b corners with
          | some m1 =>
            simp only [hC, Option.some.injEq] at h; subst h
            exact firstEmptyOf_empty hC
          | none =>
            simp only [hC] at h
            exact firstEmptyOf_empty h

theorem bestMoveRules_isSome {b : Board} (hne : ∃ i, b.get i = none) :
    ∃ m, bestMoveRules b = some m := by
  cases hbm : bestMoveRules b with
  | some m => exact ⟨m, rfl⟩
  | none =>
    exfalso
    rw [bestMoveRules] at hbm
    cases hO : findWinningOrBlockingMove b Player.O with
    | some m1 => simp only [hO] at hbm; cases hbm
    | none =>
      simp only [hO] at hbm
      cases hX : findWinningOrBlockingMove b Player.X with
      | some m1 => simp only [hX] at hbm; cases hbm
      | none =>
        simp only [hX] at hbm
        by_cases h4 : b.get 4 = none
        · simp only [h4, if_true] at hbm; cases hbm
        · simp only [h4, if_false] at hbm
          cases hOp : oppositeCorner b with
          | some m1 => simp only [hOp] at hbm; cases hbm
          | none =>
            simp only [hOp] at hbm
            cases hC : firstEmptyOf b corners with
            | some m1 => simp only [hC] at hbm; cases hbm
            | none =>
              simp only [hC] at hbm
              have hcor := firstEmptyOf_eq_none hC
              have hsid := firstEmptyOf_eq_none hbm
              obtain ⟨i, hi⟩ := hne
              match i with
              | ⟨0, _⟩ => exact hcor 0 (by decide) hi
              | ⟨1, _⟩ => exact hsid 1 (by decide) hi
              | ⟨2, _⟩ => exact hcor 2 (by decide) hi
              | ⟨3, _⟩ => exact hsid 3 (by decide) hi
              | ⟨4, _⟩ => exact h4 hi
              | ⟨5, _⟩ => exact hsid 5 (by decide) hi
              | ⟨6, _⟩ => exact hcor 6 (by decide) hi
              | ⟨7, _⟩ => exact hsid 7 (by decide) hi
              | ⟨8, _⟩ => exact hcor 8 (by decide) hi
              | ⟨n + 9, hn⟩ => exact absurd hn (by omega)

theorem accepts_active {s : GameState} {m : Move} (h : accepts s m) :
    s.gameActive = true := by
  cases m with
  | human i => exact h.2.1
  | computer rand => exact h.2.2.1

theorem handleCellClick_result (s : GameState) (i : Fin 9)
    (h1 : s.board.get i = none) (h2 : s.gameActive = true)
    (h3 : ¬(s.gameMode = GameMode.humanComputer ∧ s.currentPlayer = Player.O)) :
    ((handleCellClick s i).gameActive = false ∧
      (handleCellClick s i).currentPlayer = s.currentPlayer) ∨
    ((handleCellClick s i).gameActive = true ∧
      (handleCellClick s i).currentPlayer = s.currentPlayer.other) := by
  rw [handleCellClick, if_neg (by simp [h1, h2, h3])]
  split
  · exact Or.inl ⟨rfl, rfl⟩
  · split
    · exact Or.inl ⟨rfl, rfl⟩
    · exact Or.inr ⟨h2, rfl⟩

theorem makeComputerMove_result (rand : Nat) (s : GameState)
    (h2 : s.gameActive = true) (hne : ∃ i, s.board.get i = none) :
    ((makeComputerMove rand s).gameActive = false ∧
      (makeComputerMove rand s).currentPlayer = s.currentPlayer) ∨
    ((makeComputerMove rand s).gameActive = true ∧
      (makeComputerMove rand s).currentPlayer = Player.X) := by
  obtain ⟨i, hi⟩ := hne
  rw [makeComputerMove, if_neg (by simp [h2]), if_neg (availableCells_ne_nil hi)]
  split
  · exact Or.inl ⟨rfl, rfl⟩
  · split
    · exact Or.inl ⟨rfl, rfl⟩
    · exact Or.inr ⟨h2, rfl⟩

/-! Claim theorems. -/

/-- C1: the specification requires that a stale deferred computer move
firing after a reset (mode-selection re-entry) be a no-op on the freshly
reset state. The code violates this: `makeComputerMove` checks only
`gameActive`, which is true again after the reset, so the stale move
places `'O'` on the center cell of the freshly reset board. -/
theorem c1_stale_move_mutates_reset_state :
    (makeComputerMove 0 resetState).board.get 4 = some Player.O ∧
    resetState.board.get 4 = none ∧
    resetState.gameMode = GameMode.humanHuman ∧
    makeComputerMove 0 resetState ≠ resetState := by
  decide

/-- C2: `checkForDraw` is true iff no winning combination matches and all
9 cells are non-empty; and on an accepted move whose resulting board has a
winning combination, the handler reports a win for the mover and never a
draw (the win check precedes the draw check). -/
theorem c2_draw_iff_and_win_precedes_draw :
    (∀ b : Board, checkForDraw b = true ↔
        ((∀ l ∈ winningCombinations, lineWon b l = false) ∧
          ∀ i : Fin 9, b.get i ≠ none)) ∧
    (∀ (s : GameState) (i : Fin 9),
        s.board.get i = none → s.gameActive = true →
        ¬(s.gameMode = GameMode.humanComputer ∧ s.currentPlayer = Player.O) →
        checkForWin (s.board.set i (some s.currentPlayer)) = true →
        (handleCellClick s i).status = Status.won s.currentPlayer ∧
          (handleCellClick s i).status ≠ Status.draw) := by
  constructor
  · intro b
    rw [checkForDraw]
    simp only [Bool.and_eq_true, Bool.not_eq_true']
    rw [checkForWin_eq_false_iff, board_full_iff]
  · intro s i h1 h2 h3 hwin
    rw [handleCellClick, if_neg (by simp [h1, h2, h3]), if_pos hwin]
    exact ⟨rfl, by simp⟩

/-- Witness for C2 at a concrete state: X clicks cell 2 of
`[X, X, '', O, O, '', '', '', '']`, completing the top row; the handler
reports the win, not a draw. -/
theorem c2_witness :
    (handleCellClick demoWinState 2).status = Status.won Player.X ∧
    (handleCellClick demoWinState 2).status ≠ Status.draw :=
  c2_draw_iff_and_win_precedes_draw.2 demoWinState 2 (by decide) (by decide)
    (by decide) (by decide)

/-- C3: the win scan visits the 8 combinations in the fixed table order
and yields the first combination whose three cells are non-empty and
identical (every earlier combination fails); it reports no win exactly on
boards where no combination matches; and a combination matches exactly
when its three cells are non-empty and identical. -/
theorem c3_win_scan_first_match :
    (∀ (b : Board) (l : Line), findWin b = some l →
        lineWon b l = true ∧
        ∃ pre post, winningCombinations = pre ++ l :: post ∧
          ∀ l2 ∈ pre, lineWon b l2 = false) ∧
    (∀ b : Board, checkForWin b = false ↔
        ∀ l ∈ winningCombinations, lineWon b l = false) ∧
    (∀ (b : Board) (l : Line), lineWon b l = true ↔
        (b.get l.1 ≠ none ∧ b.get l.1 = b.get l.2.1 ∧
          b.get l.2.1 = b.get l.2.2)) := by
  refine ⟨?_, checkForWin_eq_false_iff, ?_⟩
  · intro b l h
    rw [findWin, List.find?_eq_some] at h
    obtain ⟨hl, pre, post, heq, hpre⟩ := h
    exact ⟨hl, pre, post, heq, fun l2 h2 => by simpa using hpre l2 h2⟩
  · intro b l
    rcases ha : b.get l.1 with _ | p <;> rcases hb : b.get l.2.1 with _ | q <;>
      rcases hc : b.get l.2.2 with _ | r <;> simp [lineWon, ha, hb, hc]

/-- Witness for C3 at a concrete board whose top row is three O marks:
the scan reports that first row as won. -/
theorem c3_witness : lineWon demoWonBoard (0, 1, 2) = true :=
  (c3_win_scan_first_match.1 demoWonBoard (0, 1, 2) (by decide)).1

/-- C4: a click on an occupied cell, or one arriving while the game is not
in progress, is rejected: the whole game state (board, current player,
active flag, mode, status) is left unchanged. -/
theorem c4_invalid_move_rejected :
    ∀ (s : GameState) (i : Fin 9),
      s.board.get i ≠ none ∨ s.gameActive = false →
      handleCellClick s i = s := by
  intro s i h
  have hcond : s.board.get i ≠ none ∨ s.gameActive = false ∨
      (s.gameMode = GameMode.humanComputer ∧ s.currentPlayer = Player.O) := by
    rcases h with h | h
    · exact Or.inl h
    · exact Or.inr (Or.inl h)
  rw [handleCellClick, if_pos hcond]

/-- Witness for C4: a click on the occupied cell 0 of a concrete state is
a no-op. -/
theorem c4_witness : handleCellClick demoOccupiedState 0 = demoOccupiedState :=
  c4_invalid_move_rejected demoOccupiedState 0 (Or.inl (by decide))

/-- C5: along every sequence of accepted moves from a reset, the current
player before the `n`-th accepted move (1-indexed) is X when `n` is odd
and O when `n` is even while the game is in progress; a terminal move does
not flip the current player; and no move is accepted once the game has
left the in-progress state. -/
theorem c5_alternation :
    (∀ (n : Nat) (s : GameState), ReachedIn n s → s.gameActive = true →
        s.currentPlayer = (if n % 2 = 0 then Player.X else Player.O)) ∧
    (∀ (s : GameState) (m : Move), accepts s m →
        (applyMove s m).gameActive = false →
        (applyMove s m).currentPlayer = s.currentPlayer) ∧
    (∀ (s : GameState) (m : Move), s.gameActive = false → ¬accepts s m) := by
  refine ⟨?_, ?_, ?_⟩
  · intro n s h
    induction h with
    | init s0 => intro _; rfl
    | step hr ha ih =>
      rename_i n s m
      intro hact
      have hcp := ih (accepts_active ha)
      have hflip : (applyMove s m).currentPlayer = s.currentPlayer.other := by
        cases m with
        | human i =>
          simp only [accepts] at ha
          obtain ⟨hb, hac, hg⟩ := ha
          simp only [applyMove] at hact ⊢
          rcases handleCellClick_result s i hb hac hg with ⟨hf, _⟩ | ⟨_, hcp'⟩
          · rw [hf] at hact; simp at hact
          · exact hcp'
        | computer rand =>
          simp only [accepts] at ha
          obtain ⟨hgm, hO, hac, hne⟩ := ha
          simp only [applyMove] at hact ⊢
          rcases makeComputerMove_result rand s hac hne with ⟨hf, _⟩ | ⟨_, hcp'⟩
          · rw [hf] at hact; simp at hact
          · rw [hcp', hO]; rfl
      rw [hflip, hcp]
      rcases Nat.mod_two_eq_zero_or_one n with h2 | h2 <;>
        simp [h2, Nat.add_mod, Player.other]
  · intro s m ha hf
    cases m with
    | human i =>
      simp only [accepts] at ha
      obtain ⟨hb, hac, hg⟩ := ha
      simp only [applyMove] at hf ⊢
      rcases handleCellClick_result s i hb hac hg with ⟨_, hcp⟩ | ⟨hact, _⟩
      · exact hcp
      · rw [hact] at hf; simp at hf
    | computer rand =>
      simp only [accepts] at ha
      obtain ⟨hgm, hO, hac, hne⟩ := ha
      simp only [applyMove] at hf ⊢
      rcases makeComputerMove_result rand s hac hne with ⟨_, hcp⟩ | ⟨hact, _⟩
      · exact hcp
      · rw [hact] at hf; simp at hf
  · intro s m hf ha
    have := accepts_active ha
    rw [hf] at this
    simp at this

/-- Witness for C5: a freshly reset game is active with X to move, matching
the parity formula at `n = 0`. -/
theorem c5_witness :
    (initializeGame demoComputerTurnState).currentPlayer =
      (if 0 % 2 = 0 then Player.X else Player.O) :=
  c5_alternation.1 0 (initializeGame demoComputerTurnState)
    (ReachedIn.init demoComputerTurnState) rfl

/-- C6: on the board `[X, X, '', '', '', '', '', '', '']` the win rule (for
O) finds nothing, the block rule (for X) fires on the top row, and the
policy deterministically chooses index 2. -/
theorem c6_block_rule_picks_two :
    findWinningOrBlockingMove boardRowBlock Player.O = none ∧
    findWinningOrBlockingMove boardRowBlock Player.X = some 2 ∧
    bestMoveRules boardRowBlock = some 2 ∧
    ∀ rand : Nat, chooseMove boardRowBlock rand = 2 := by
  refine ⟨by decide, by decide, by decide, fun rand => ?_⟩
  simp only [chooseMove, show bestMoveRules boardRowBlock = some 2 from by decide]

/-- C7: on the board `[X, '', '', '', O, '', '', '', '']` no win or block
rule applies, the center is occupied, and the opposite-corner rule's first
pair (0 ↔ 8) fires, choosing index 8. -/
theorem c7_opposite_corner_reply :
    findWinningOrBlockingMove boardCornerReply Player.O = none ∧
    findWinningOrBlockingMove boardCornerReply Player.X = none ∧
    boardCornerReply.get 4 ≠ none ∧
    oppositeCorner boardCornerReply = some 8 ∧
    bestMoveRules boardCornerReply = some 8 ∧
    ∀ rand : Nat, chooseMove boardCornerReply rand = 8 := by
  refine ⟨by decide, by decide, by decide, by decide, by decide, fun rand => ?_⟩
  simp only [chooseMove, show bestMoveRules boardCornerReply = some 8 from by decide]

/-- C8: on every board with an empty cell the priority rules 1-6 select a
move, so the random fallback is unreachable and the chosen move does not
depend on the random draw. -/
theorem c8_rules_cover_all_boards :
    ∀ b : Board, (∃ i, b.get i = none) →
      ∃ m, bestMoveRules b = some m ∧ ∀ rand : Nat, chooseMove b rand = m := by
  intro b hne
  obtain ⟨m, hm⟩ := bestMoveRules_isSome hne
  exact ⟨m, hm, fun rand => by simp only [chooseMove, hm]⟩

/-- Witness for C8 on the empty board. -/
theorem c8_witness :
    ∃ m, bestMoveRules emptyBoard = some m ∧
      ∀ rand : Nat, chooseMove emptyBoard rand = m :=
  c8_rules_cover_all_boards emptyBoard ⟨0, rfl⟩

/-- C9: in human-vs-computer mode a click arriving on the computer's turn
(current player O) is ignored: the whole game state is unchanged. -/
theorem c9_computer_turn_click_ignored :
    ∀ (s : GameState) (i : Fin 9),
      s.gameMode = GameMode.humanComputer → s.currentPlayer = Player.O →
      handleCellClick s i = s := by
  intro s i h1 h2
  rw [handleCellClick, if_pos (Or.inr (Or.inr ⟨h1, h2⟩))]

/-- Witness for C9: a click on cell 0 during the computer's turn of a
concrete human-vs-computer state is a no-op. -/
theorem c9_witness :
    handleCellClick demoComputerTurnState 0 = demoComputerTurnState :=
  c9_computer_turn_click_ignored demoComputerTurnState 0 rfl rfl

/-- C10: on every board with an empty cell, the index chosen by the policy
(for any random draw) refers to an empty cell, so the computer never
overwrites an existing mark. -/
theorem c10_chosen_cell_empty :
    ∀ (b : Board) (rand : Nat), (∃ i, b.get i = none) →
      b.get (chooseMove b rand) = none := by
  intro b rand hne
  obtain ⟨m, hm⟩ := bestMoveRules_isSome hne
  rw [show chooseMove b rand = m from by simp only [chooseMove, hm]]
  exact bestMoveRules_empty hm

/-- Witness for C10 on the empty board with a concrete random draw. -/
theorem c10_witness : emptyBoard.get (chooseMove emptyBoard 7) = none :=
  c10_chosen_cell_empty emptyBoard 7 ⟨0, rfl⟩
